import Mathlib

/-!
Verification of the FluxGate service registry, load balancer, router and
control API against their specification.  The Go sources are embedded
shallowly: maps become association lists, slices become lists, `int64`
becomes `Int` with the source's explicit bounds, and each exported Go
function becomes an executable Lean definition.
-/

namespace FluxGate

/-- A service instance as registered in the discovery registry
(struct `ServiceInstance` of package `discovery`).  The
`map[string]string` metadata is modelled as an association list. -/
structure ServiceInstance where
  id : String
  service : String
  address : String
  port : Int
  metadata : List (String × String)
deriving DecidableEq, Repr

/-- The registry table (field `services map[string][]ServiceInstance` of
`discovery.Service`), modelled as an association list from service name to
instance list.  An absent key models an absent Go map key, whose read
yields a nil slice. -/
abbrev Registry := List (String × List ServiceInstance)

/-- Go map read `s.services[svc]` distinguishing absence (nil slice) from
presence. -/
def lookupSvc : Registry → String → Option (List ServiceInstance)
  | [], _ => none
  | (k, v) :: rest, svc => if k = svc then some v else lookupSvc rest svc

/-- Go map read `s.services[svc]` where a nil slice behaves as an empty
list (the only way the registry code consumes it). -/
def lookupSvcD (reg : Registry) (svc : String) : List ServiceInstance :=
  (lookupSvc reg svc).getD []

/-- Go map write `s.services[svc] = l`. -/
def setSvc : Registry → String → List ServiceInstance → Registry
  | [], svc, l => [(svc, l)]
  | (k, v) :: rest, svc, l =>
    if k = svc then (svc, l) :: rest else (k, v) :: setSvc rest svc l

/-- The update-or-append loop shared verbatim by `Service.Register` and the
register branch of `Service.NotifyMsg`: replace the first instance carrying
the same id, otherwise append at the end. -/
def upsertList : List ServiceInstance → ServiceInstance → List ServiceInstance
  | [], inst => [inst]
  | x :: xs, inst => if x.id = inst.id then inst :: xs else x :: upsertList xs inst

/-- A gossip delta: the decoded `{action, instance|service_id}` payload. -/
inductive Delta where
  | reg (inst : ServiceInstance)
  | dereg (serviceID : String)
deriving DecidableEq, Repr

/-- `Service.Register`: upsert by id, queue one register broadcast, notify
subscribers.  `json.Marshal` of the payload cannot fail and is elided, so
the call always succeeds. -/
def registerInstance (reg : Registry) (inst : ServiceInstance) :
    Registry × List Delta × Bool :=
  (setSvc reg inst.service (upsertList (lookupSvcD reg inst.service) inst),
   [Delta.reg inst], true)

/-- Removal of the first instance with the given id from one service's list
(`append(instances[:i], instances[i+1:]...)`). -/
def removeFirstInst : List ServiceInstance → String → List ServiceInstance
  | [], _ => []
  | x :: xs, sid => if x.id = sid then xs else x :: removeFirstInst xs sid

/-- The scan shared by `Service.Deregister` and the deregister branch of
`Service.NotifyMsg`: walk the services, remove the first instance carrying
the id from the first service that holds one, and stop; `none` when the id
appears nowhere.  Go iterates the map in unspecified order; the model fixes
the association-list order, on which no proved claim depends. -/
def deregScan : Registry → String → Option Registry
  | [], _ => none
  | (k, v) :: rest, sid =>
    if v.any (fun i => i.id = sid) then
      some ((k, removeFirstInst v sid) :: rest)
    else
      match deregScan rest sid with
      | some rest2 => some ((k, v) :: rest2)
      | none => none

/-- Outcome of `Service.Deregister`: the new registry, the queued
broadcasts, whether subscribers were notified, and `ok = false` for the
`service instance not found` error. -/
structure DeregResult where
  registry : Registry
  broadcasts : List Delta
  notified : Bool
  ok : Bool
deriving DecidableEq, Repr

/-- `Service.Deregister`. -/
def deregisterInstance (reg : Registry) (sid : String) : DeregResult :=
  match deregScan reg sid with
  | some reg2 => ⟨reg2, [Delta.dereg sid], true, true⟩
  | none => ⟨reg, [], false, false⟩

/-- State change of `Service.NotifyMsg` on a well-formed decoded delta.
Register deltas are applied unconditionally (no name validation);
deregister deltas notify only on a hit; nothing is re-broadcast. -/
def notifyMsg (reg : Registry) (d : Delta) : Registry × Bool :=
  match d with
  | Delta.reg inst =>
    (setSvc reg inst.service (upsertList (lookupSvcD reg inst.service) inst), true)
  | Delta.dereg sid =>
    match deregScan reg sid with
    | some reg2 => (reg2, true)
    | none => (reg, false)

/-- A decoded remote full-state snapshot (service → instances map). -/
abbrev Snapshot := List (String × List ServiceInstance)

/-- One iteration of the `MergeRemoteState` loop for one remote service:
a locally absent service takes the remote list verbatim, otherwise each
remote instance replaces the first local instance with the same id or is
appended. -/
def mergeService (reg : Registry) (svc : String)
    (instances : List ServiceInstance) : Registry :=
  match lookupSvc reg svc with
  | none => setSvc reg svc instances
  | some locals => setSvc reg svc (instances.foldl upsertList locals)

/-- `Service.MergeRemoteState` after successful JSON decoding: fold the
per-service merge over the snapshot, then notify subscribers. -/
def mergeRemoteState (reg : Registry) (snap : Snapshot) : Registry × Bool :=
  (snap.foldl (fun r p => mergeService r p.1 p.2) reg, true)

/-- One registry-mutating event: a local control-plane call, a received
gossip delta, or a received anti-entropy snapshot. -/
inductive RegOp where
  | localRegister (inst : ServiceInstance)
  | localDeregister (sid : String)
  | gossip (d : Delta)
  | merge (snap : Snapshot)
deriving DecidableEq, Repr

/-- Effect of one event on the registry. -/
def applyOp (reg : Registry) : RegOp → Registry
  | RegOp.localRegister inst => (registerInstance reg inst).1
  | RegOp.localDeregister sid => (deregisterInstance reg sid).registry
  | RegOp.gossip d => (notifyMsg reg d).1
  | RegOp.merge snap => (mergeRemoteState reg snap).1

/-- The registry state reached from the empty registry by a sequence of
events. -/
def applyOps (ops : List RegOp) : Registry :=
  ops.foldl applyOp []

/-- Within each service of the registry the instance ids are pairwise
distinct. -/
def serviceIdsNodup (reg : Registry) : Prop :=
  ∀ p ∈ reg, (p.2.map ServiceInstance.id).Nodup

/-- A snapshot is id-clean when every per-service instance list has
pairwise-distinct ids. -/
def snapIdsNodup (snap : Snapshot) : Prop :=
  ∀ p ∈ snap, (p.2.map ServiceInstance.id).Nodup

/-- Restriction on events used by the amended C1: merged snapshots are
id-clean, everything else is unrestricted. -/
def opIdClean : RegOp → Prop
  | RegOp.merge snap => snapIdsNodup snap
  | _ => True

instance (reg : Registry) : Decidable (serviceIdsNodup reg) :=
  List.decidableBAll _ reg

instance (snap : Snapshot) : Decidable (snapIdsNodup snap) :=
  List.decidableBAll _ snap

instance (op : RegOp) : Decidable (opIdClean op) := by
  cases op <;> unfold opIdClean <;> infer_instance

/-- The ids after an upsert: unchanged when the id was present, the new id
appended otherwise. -/
theorem upsertList_map_id (l : List ServiceInstance) (inst : ServiceInstance) :
    (upsertList l inst).map ServiceInstance.id =
      if l.any (fun i => i.id = inst.id) then l.map ServiceInstance.id
      else l.map ServiceInstance.id ++ [inst.id] := by
  induction l with
  | nil => simp [upsertList]
  | cons x xs ih =>
    by_cases h : x.id = inst.id
    · simp [upsertList, h]
    · simp only [upsertList, if_neg h, List.map_cons, List.any_cons, ih]
      simp [h]
      split <;> simp

theorem upsertList_nodup {l : List ServiceInstance} (inst : ServiceInstance)
    (h : (l.map ServiceInstance.id).Nodup) :
    ((upsertList l inst).map ServiceInstance.id).Nodup := by
  rw [upsertList_map_id]
  split
  · exact h
  · next hany =>
    have hnot : inst.id ∉ l.map ServiceInstance.id := by
      intro hmem
      rcases List.mem_map.mp hmem with ⟨x, hx, hxid⟩
      exact hany (List.any_eq_true.mpr ⟨x, hx, by simp [hxid]⟩)
    simp [List.nodup_append, h, hnot]

theorem removeFirstInst_sublist (l : List ServiceInstance) (sid : String) :
    List.Sublist (removeFirstInst l sid) l := by
  induction l with
  | nil => simp [removeFirstInst]
  | cons x xs ih =>
    by_cases h : x.id = sid
    · simp only [removeFirstInst, if_pos h]
      exact List.sublist_cons_self x xs
    · simp only [removeFirstInst, if_neg h]
      exact ih.cons₂ x

theorem removeFirstInst_nodup {l : List ServiceInstance} (sid : String)
    (h : (l.map ServiceInstance.id).Nodup) :
    ((removeFirstInst l sid).map ServiceInstance.id).Nodup :=
  h.sublist ((removeFirstInst_sublist l sid).map ServiceInstance.id)

theorem setSvc_mem {reg : Registry} {svc : String} {l : List ServiceInstance}
    {p : String × List ServiceInstance} (hp : p ∈ setSvc reg svc l) :
    p ∈ reg ∨ p = (svc, l) := by
  induction reg with
  | nil => simp [setSvc] at hp; simp [hp]
  | cons q rest ih =>
    obtain ⟨k, v⟩ := q
    unfold setSvc at hp
    by_cases h : k = svc
    · rw [if_pos h] at hp
      rcases List.mem_cons.mp hp with h1 | h1
      · exact Or.inr h1
      · exact Or.inl (List.mem_cons_of_mem _ h1)
    · rw [if_neg h] at hp
      rcases List.mem_cons.mp hp with h1 | h1
      · exact Or.inl (h1 ▸ List.mem_cons_self _ _)
      · rcases ih h1 with h2 | h2
        · exact Or.inl (List.mem_cons_of_mem _ h2)
        · exact Or.inr h2

theorem lookupSvc_mem {reg : Registry} {svc : String} {l : List ServiceInstance}
    (h : lookupSvc reg svc = some l) : (svc, l) ∈ reg := by
  induction reg with
  | nil => simp [lookupSvc] at h
  | cons q rest ih =>
    obtain ⟨k, v⟩ := q
    unfold lookupSvc at h
    by_cases hk : k = svc
    · rw [if_pos hk] at h
      subst hk
      simp only [Option.some.injEq] at h
      exact h ▸ List.mem_cons_self _ _
    · rw [if_neg hk] at h
      exact List.mem_cons_of_mem _ (ih h)

theorem lookupSvcD_nodup {reg : Registry} (hreg : serviceIdsNodup reg)
    (svc : String) : ((lookupSvcD reg svc).map ServiceInstance.id).Nodup := by
  unfold lookupSvcD
  cases h : lookupSvc reg svc with
  | none => simp
  | some l => simpa using hreg _ (lookupSvc_mem h)

/-- Upserting a whole remote list one by one keeps the ids pairwise
distinct. -/
theorem foldl_upsertList_nodup (instances : List ServiceInstance)
    {locals : List ServiceInstance}
    (h : (locals.map ServiceInstance.id).Nodup) :
    ((instances.foldl upsertList locals).map ServiceInstance.id).Nodup := by
  induction instances generalizing locals with
  | nil => simpa using h
  | cons i rest ih => exact ih (upsertList_nodup i h)

theorem setSvc_preserves_nodup {reg : Registry} (hreg : serviceIdsNodup reg)
    {svc : String} {l : List ServiceInstance}
    (hl : (l.map ServiceInstance.id).Nodup) :
    serviceIdsNodup (setSvc reg svc l) := by
  intro p hp
  rcases setSvc_mem hp with h1 | h1
  · exact hreg p h1
  · rw [h1]; exact hl

theorem mergeService_preserves_nodup {reg : Registry}
    (hreg : serviceIdsNodup reg) {svc : String}
    {instances : List ServiceInstance}
    (hinst : (instances.map ServiceInstance.id).Nodup) :
    serviceIdsNodup (mergeService reg svc instances) := by
  unfold mergeService
  cases h : lookupSvc reg svc with
  | none => exact setSvc_preserves_nodup hreg hinst
  | some locals =>
    have hl : (locals.map ServiceInstance.id).Nodup := by
      simpa using hreg _ (lookupSvc_mem h)
    exact setSvc_preserves_nodup hreg (foldl_upsertList_nodup instances hl)

theorem deregScan_preserves_nodup {reg : Registry} {sid : String}
    {reg2 : Registry} (hreg : serviceIdsNodup reg)
    (h : deregScan reg sid = some reg2) : serviceIdsNodup reg2 := by
  induction reg generalizing reg2 with
  | nil => simp [deregScan] at h
  | cons q rest ih =>
    obtain ⟨k, v⟩ := q
    unfold deregScan at h
    by_cases hv : v.any (fun i => i.id = sid)
    · rw [if_pos hv] at h
      simp only [Option.some.injEq] at h
      subst h
      intro p hp
      rcases List.mem_cons.mp hp with h1 | h1
      · subst h1
        exact removeFirstInst_nodup sid (hreg _ (List.mem_cons_self _ _))
      · exact hreg p (List.mem_cons_of_mem _ h1)
    · rw [if_neg hv] at h
      cases hrest : deregScan rest sid with
      | none => rw [hrest] at h; exact absurd h (by simp)
      | some rest2 =>
        rw [hrest] at h
        simp only [Option.some.injEq] at h
        subst h
        have hrestInv : serviceIdsNodup rest :=
          fun p hp => hreg p (List.mem_cons_of_mem _ hp)
        intro p hp
        rcases List.mem_cons.mp hp with h1 | h1
        · subst h1; exact hreg _ (List.mem_cons_self _ _)
        · exact ih hrestInv hrest p h1

theorem applyOp_preserves_nodup {reg : Registry} {op : RegOp}
    (hreg : serviceIdsNodup reg) (hop : opIdClean op) :
    serviceIdsNodup (applyOp reg op) := by
  cases op with
  | localRegister inst =>
    exact setSvc_preserves_nodup hreg
      (upsertList_nodup inst (lookupSvcD_nodup hreg inst.service))
  | localDeregister sid =>
    simp only [applyOp]
    cases h : deregScan reg sid with
    | none => simp only [deregisterInstance, h]; exact hreg
    | some reg2 =>
      simp only [deregisterInstance, h]
      exact deregScan_preserves_nodup hreg h
  | gossip d =>
    cases d with
    | reg inst =>
      exact setSvc_preserves_nodup hreg
        (upsertList_nodup inst (lookupSvcD_nodup hreg inst.service))
    | dereg sid =>
      simp only [applyOp, notifyMsg]
      cases h : deregScan reg sid with
      | none => simp only [h]; exact hreg
      | some reg2 => simp only [h]; exact deregScan_preserves_nodup hreg h
  | merge snap =>
    unfold applyOp mergeRemoteState
    have hclean : snapIdsNodup snap := hop
    clear hop
    induction snap generalizing reg with
    | nil => simpa using hreg
    | cons p rest ih =>
      simp only [List.foldl_cons]
      exact ih
        (mergeService_preserves_nodup hreg (hclean p (List.mem_cons_self _ _)))
        (fun q hq => hclean q (List.mem_cons_of_mem _ hq))

theorem foldl_applyOp_preserves_nodup (ops : List RegOp) :
    ∀ reg, serviceIdsNodup reg → (∀ op ∈ ops, opIdClean op) →
      serviceIdsNodup (ops.foldl applyOp reg) := by
  induction ops with
  | nil => intro reg hreg _; simpa using hreg
  | cons op rest ih =>
    intro reg hreg hops
    simp only [List.foldl_cons]
    exact ih _ (applyOp_preserves_nodup hreg (hops op (List.mem_cons_self _ _)))
      (fun o ho => hops o (List.mem_cons_of_mem _ ho))

/-- C1 (counterexample): merging a remote snapshot whose instance list for
service `svc` carries the id `x` twice is a legal event sequence from the
empty registry, and it leaves the registry with two instances of id `x`
inside one service, so the claimed invariant fails on a reachable state. -/
theorem C1_counterexample :
    ¬ serviceIdsNodup (applyOps [RegOp.merge [("svc",
      [⟨"x", "svc", "a", 1, []⟩, ⟨"x", "svc", "b", 2, []⟩])]]) := by
  decide

/-- C1 (amended): starting from the empty registry, under any sequence of
local `Register`/`Deregister` calls, remote `NotifyMsg` deltas, and
`MergeRemoteState` snapshots whose per-service instance lists are
themselves free of duplicate ids, every reachable registry state has
pairwise-distinct instance ids within each service. -/
theorem C1_registry_ids_nodup (ops : List RegOp)
    (hops : ∀ op ∈ ops, opIdClean op) : serviceIdsNodup (applyOps ops) :=
  foldl_applyOp_preserves_nodup ops [] (by intro p hp; simp at hp) hops

/-- C1 witness: a concrete event sequence (a local register, a gossip
register delta of the same id, a deregister, and an id-clean merge)
satisfies the hypothesis, and the resulting state has distinct ids. -/
theorem C1_witness :
    (∀ op ∈ [RegOp.localRegister ⟨"a", "s", "h", 1, []⟩,
        RegOp.gossip (Delta.reg ⟨"a", "s", "h2", 2, []⟩),
        RegOp.merge [("s", [⟨"b", "s", "h3", 3, []⟩])],
        RegOp.localDeregister "a"], opIdClean op) ∧
    serviceIdsNodup (applyOps [RegOp.localRegister ⟨"a", "s", "h", 1, []⟩,
        RegOp.gossip (Delta.reg ⟨"a", "s", "h2", 2, []⟩),
        RegOp.merge [("s", [⟨"b", "s", "h3", 3, []⟩])],
        RegOp.localDeregister "a"]) :=
  ⟨by decide, C1_registry_ids_nodup _ (by decide)⟩

theorem deregScan_eq_none {reg : Registry} {sid : String}
    (h : ∀ p ∈ reg, ∀ i ∈ p.2, i.id ≠ sid) : deregScan reg sid = none := by
  induction reg with
  | nil => rfl
  | cons q rest ih =>
    obtain ⟨k, v⟩ := q
    have hv : v.any (fun i => i.id = sid) = false := by
      simp only [List.any_eq_false, decide_eq_true_eq]
      intro i hi
      exact h (k, v) (List.mem_cons_self _ _) i hi
    unfold deregScan
    rw [if_neg (by simp [hv]), ih (fun p hp => h p (List.mem_cons_of_mem _ hp))]

/-- C5: deregistering an id that appears in no service's instance list
returns the not-found error, leaves the registry unchanged, enqueues no
broadcast and notifies no subscriber. -/
theorem C5_deregister_unknown_id (reg : Registry) (sid : String)
    (h : ∀ p ∈ reg, ∀ i ∈ p.2, i.id ≠ sid) :
    deregisterInstance reg sid = ⟨reg, [], false, false⟩ := by
  unfold deregisterInstance
  rw [deregScan_eq_none h]

/-- C5 witness: a concrete registry holding ids `a` and `b` and the unknown
id `zzz`. -/
theorem C5_witness :
    (∀ p ∈ [("s", [(⟨"a", "s", "h", 1, []⟩ : ServiceInstance)]),
        ("t", [⟨"b", "t", "h", 2, []⟩])], ∀ i ∈ p.2, i.id ≠ "zzz") ∧
    deregisterInstance [("s", [⟨"a", "s", "h", 1, []⟩]),
        ("t", [⟨"b", "t", "h", 2, []⟩])] "zzz"
      = ⟨[("s", [⟨"a", "s", "h", 1, []⟩]), ("t", [⟨"b", "t", "h", 2, []⟩])],
          [], false, false⟩ :=
  ⟨by decide, C5_deregister_unknown_id _ _ (by decide)⟩

/-- Go `strings.HasPrefix` on the characters of the strings. -/
def strHasPre (s p : String) : Bool := decide (List.IsPrefix p.toList s.toList)

/-- Reserved service names (`reservedServiceNames` in
`internal/proxy/proxy.go`). -/
def reservedServiceNames : List String := ["api", "_fluxgate", "health", "metrics", "v1"]

/-- `isReservedServiceName`: member of the reserved set or a name starting
with an underscore. -/
def isReservedServiceName (name : String) : Bool :=
  reservedServiceNames.contains name || strHasPre name "_"

/-- `Server.handleServiceRegistration` after JSON decoding: the validation
chain and the resulting HTTP status with the updated registry.  A body that
passes validation reaches `discovery.Register`, which always succeeds, so
the success path answers 201 Created. -/
def handleServiceRegistration (reg : Registry) (inst : ServiceInstance) :
    Nat × Registry :=
  if inst.id = "" ∨ inst.service = "" ∨ inst.address = "" ∨ inst.port = 0 then
    (400, reg)
  else if isReservedServiceName inst.service then
    (400, reg)
  else
    (201, (registerInstance reg inst).1)

/-- C7 (counterexample): a body with port 70000 — outside `[1,65535]` — is
accepted with 201, because the endpoint only rejects `port == 0`. -/
theorem C7_counterexample :
    (handleServiceRegistration [] ⟨"i1", "svc", "127.0.0.1", 70000, []⟩).1 = 201 ∧
    ¬ (1 ≤ (70000 : Int) ∧ (70000 : Int) ≤ 65535) := by
  constructor
  · decide
  · decide

/-- C7 (amended): every instance accepted with 201 has a nonzero port, and
a body whose port is 0 is rejected with 400 leaving the registry unchanged;
no other port-range check is performed. -/
theorem C7_port_validation (reg : Registry) (inst : ServiceInstance) :
    ((handleServiceRegistration reg inst).1 = 201 → inst.port ≠ 0) ∧
    (inst.port = 0 → handleServiceRegistration reg inst = (400, reg)) := by
  constructor
  · intro h hz
    unfold handleServiceRegistration at h
    rw [if_pos (Or.inr (Or.inr (Or.inr hz)))] at h
    simp at h
  · intro hz
    unfold handleServiceRegistration
    rw [if_pos (Or.inr (Or.inr (Or.inr hz)))]

/-- C7 witness: port 8080 is accepted and hence nonzero; port 0 is
rejected without touching the registry. -/
theorem C7_witness :
    ((⟨"i", "s", "h", 8080, []⟩ : ServiceInstance).port ≠ 0) ∧
    handleServiceRegistration [] ⟨"i", "s", "h", 0, []⟩ = (400, []) :=
  ⟨(C7_port_validation [] ⟨"i", "s", "h", 8080, []⟩).1 (by decide),
   (C7_port_validation [] ⟨"i", "s", "h", 0, []⟩).2 (by decide)⟩

/-- First instance with the given id (`find by id` view of a service
list). -/
def findById (l : List ServiceInstance) (iid : String) : Option ServiceInstance :=
  l.find? (fun i => i.id = iid)

theorem findById_upsertList_self (l : List ServiceInstance)
    (inst : ServiceInstance) : findById (upsertList l inst) inst.id = some inst := by
  induction l with
  | nil => simp [upsertList, findById]
  | cons x xs ih =>
    by_cases h : x.id = inst.id
    · simp [upsertList, h, findById]
    · simp only [upsertList, if_neg h]
      unfold findById at ih ⊢
      simp [List.find?_cons, h, ih]

theorem lookupSvcD_setSvc_self (reg : Registry) (svc : String)
    (l : List ServiceInstance) : lookupSvcD (setSvc reg svc l) svc = l := by
  induction reg with
  | nil => simp [setSvc, lookupSvcD, lookupSvc]
  | cons q rest ih =>
    obtain ⟨k, v⟩ := q
    unfold setSvc
    by_cases h : k = svc
    · simp [h, lookupSvcD, lookupSvc]
    · simp only [if_neg h]
      unfold lookupSvcD lookupSvc
      rw [if_neg h]
      exact ih

/-- C10: gossip register deltas bypass reserved-name validation — a
well-formed register delta is applied to the registry unconditionally and
subscribers are notified, even when its service name is reserved (such as
`api` or any name starting with an underscore) or empty, while the control
endpoint rejects exactly those names with 400. -/
theorem C10_gossip_bypasses_validation (reg : Registry) (inst : ServiceInstance) :
    findById (lookupSvcD (notifyMsg reg (Delta.reg inst)).1 inst.service) inst.id
        = some inst ∧
    (notifyMsg reg (Delta.reg inst)).2 = true ∧
    isReservedServiceName "api" = true ∧
    (∀ s : String, strHasPre s "_" = true → isReservedServiceName s = true) ∧
    (∀ (r : Registry) (i : ServiceInstance), isReservedServiceName i.service = true →
      handleServiceRegistration r i = (400, r)) := by
  refine ⟨?_, rfl, by decide, ?_, ?_⟩
  · simp only [notifyMsg]
    rw [lookupSvcD_setSvc_self]
    exact findById_upsertList_self _ inst
  · intro s hs
    simp [isReservedServiceName, hs]
  · intro r i hi
    unfold handleServiceRegistration
    by_cases h : i.id = "" ∨ i.service = "" ∨ i.address = "" ∨ i.port = 0
    · rw [if_pos h]
    · rw [if_neg h, if_pos hi]

/-- C10 witness: the reserved name `api` and the empty name are stored via
gossip with notification, `_internal` is reserved, and the control endpoint
rejects the same instance with 400. -/
theorem C10_witness :
    findById (lookupSvcD (notifyMsg []
        (Delta.reg ⟨"x", "api", "h", 1, []⟩)).1 "api") "x"
      = some ⟨"x", "api", "h", 1, []⟩ ∧
    findById (lookupSvcD (notifyMsg []
        (Delta.reg ⟨"y", "", "h", 1, []⟩)).1 "") "y"
      = some ⟨"y", "", "h", 1, []⟩ ∧
    isReservedServiceName "_internal" = true ∧
    handleServiceRegistration [] ⟨"x", "api", "h", 1, []⟩ = (400, []) :=
  ⟨(C10_gossip_bypasses_validation [] ⟨"x", "api", "h", 1, []⟩).1,
   (C10_gossip_bypasses_validation [] ⟨"y", "", "h", 1, []⟩).1,
   (C10_gossip_bypasses_validation [] ⟨"z", "s", "h", 1, []⟩).2.2.2.1
     "_internal" (by decide),
   (C10_gossip_bypasses_validation [] ⟨"z", "s", "h", 1, []⟩).2.2.2.2
     [] ⟨"x", "api", "h", 1, []⟩ (by decide)⟩

/-- The maximum `int64` value, `int64(^uint64(0) >> 1)`. -/
def maxInt64 : Int := 2 ^ 63 - 1

/-- Wrap-around `int64` addition (`atomic.AddInt64`). -/
def int64Add (a b : Int) : Int := (a + b + 2 ^ 63) % 2 ^ 64 - 2 ^ 63

/-- A backend of a pool (struct `Backend` of package `loadbalancer`): the
parsed URL kept as its string form, the `int` weight, the active flag and
the `int64` in-flight counter. -/
structure Backend where
  url : String
  weight : Int
  active : Bool
  connections : Int
deriving DecidableEq, Repr

/-- Placeholder backend used for in-bounds list indexing. -/
def dummyBackend : Backend := ⟨"", 0, false, 0⟩

/-- Round-robin pool state: the backend slice plus the `uint64` counter. -/
structure RoundRobin where
  backends : List Backend
  current : Nat
deriving DecidableEq, Repr

/-- `NewRoundRobin`. -/
def newRoundRobin : RoundRobin := ⟨[], 0⟩

/-- `RoundRobin.Add`: append only; the active flag is not touched. -/
def rrAdd (rr : RoundRobin) (b : Backend) : RoundRobin :=
  { rr with backends := rr.backends ++ [b] }

/-- `RoundRobin.Next`: nil on an empty slice, else snapshot the active
backends, nil when the snapshot is empty, else advance the counter
(wrapping as `uint64`) and index the snapshot by the counter modulo its
length. -/
def rrNext (rr : RoundRobin) : Option Backend × RoundRobin :=
  if rr.backends = [] then (none, rr)
  else
    let activeBackends := rr.backends.filter (fun b => b.active)
    if activeBackends = [] then (none, rr)
    else
      let n := (rr.current + 1) % 2 ^ 64
      (some (activeBackends.getD (n % activeBackends.length) dummyBackend),
       { rr with current := n })

/-- Least-connection pool state: the backend slice. -/
abbrev LeastConnection := List Backend

/-- `NewLeastConnection`. -/
def newLeastConnection : LeastConnection := []

/-- `LeastConnection.Add`: force the active flag on, then append. -/
def lcAdd (lc : LeastConnection) (b : Backend) : LeastConnection :=
  lc ++ [{ b with active := true }]

/-- The selection loop of `LeastConnection.Next`: index of the active
backend with the fewest connections seen so far, strict comparison starting
from `maxInt64`. -/
def lcScan : List Backend → Nat → Option Nat → Int → Option Nat
  | [], _, sel, _ => sel
  | b :: bs, idx, sel, minConns =>
    if b.active ∧ b.connections < minConns then
      lcScan bs (idx + 1) (some idx) b.connections
    else
      lcScan bs (idx + 1) sel minConns

/-- `LeastConnection.Next`: run the selection loop; on a hit increment the
selected backend's counter (`atomic.AddInt64`) and return it. -/
def lcNext (lc : LeastConnection) : Option Backend × LeastConnection :=
  match lcScan lc 0 none maxInt64 with
  | none => (none, lc)
  | some idx =>
    match lc.get? idx with
    | none => (none, lc)
    | some b =>
      let b2 := { b with connections := int64Add b.connections 1 }
      (some b2, lc.set idx b2)

theorem rrNext_eq_none_iff (rr : RoundRobin) :
    (rrNext rr).1 = none ↔
      rr.backends = [] ∨ ∀ b ∈ rr.backends, b.active = false := by
  unfold rrNext
  by_cases h1 : rr.backends = []
  · simp [h1]
  · rw [if_neg h1]
    by_cases h2 : rr.backends.filter (fun b => b.active) = []
    · rw [if_pos h2]
      have hall : ∀ b ∈ rr.backends, b.active = false := by
        intro b hb
        have := List.filter_eq_nil_iff.mp h2 b hb
        simpa using this
      exact iff_of_true rfl (Or.inr hall)
    · rw [if_neg h2]
      refine iff_of_false (by simp) ?_
      rintro (h | hall)
      · exact h1 h
      · rcases List.exists_mem_of_ne_nil _ h2 with ⟨b, hb⟩
        have hmem := List.mem_filter.mp hb
        have := hall b hmem.1
        rw [this] at hmem
        simp at hmem

theorem rrNext_some_active {rr : RoundRobin} {b : Backend}
    (h : (rrNext rr).1 = some b) : b.active = true ∧ b ∈ rr.backends := by
  unfold rrNext at h
  by_cases h1 : rr.backends = []
  · simp [h1] at h
  · rw [if_neg h1] at h
    by_cases h2 : rr.backends.filter (fun b => b.active) = []
    · simp [h2] at h
    · rw [if_neg h2] at h
      simp only [Option.some.injEq] at h
      have hlen : 0 < (rr.backends.filter (fun b => b.active)).length :=
        List.length_pos.mpr h2
      have hidx : ((rr.current + 1) % 2 ^ 64) %
          (rr.backends.filter (fun b => b.active)).length
            < (rr.backends.filter (fun b => b.active)).length :=
        Nat.mod_lt _ hlen
      have hmem : (rr.backends.filter (fun b => b.active)).getD
          (((rr.current + 1) % 2 ^ 64) %
            (rr.backends.filter (fun b => b.active)).length) dummyBackend
            ∈ rr.backends.filter (fun b => b.active) := by
        rw [List.getD_eq_getElem _ _ hidx]
        exact List.getElem_mem _
      rw [h] at hmem
      have := List.mem_filter.mp hmem
      exact ⟨by simpa using this.2, this.1⟩

theorem lcScan_acc_some (bs : List Backend) (idx j : Nat) (m : Int) :
    lcScan bs idx (some j) m ≠ none := by
  induction bs generalizing idx j m with
  | nil => simp [lcScan]
  | cons b rest ih =>
    unfold lcScan
    by_cases h : b.active ∧ b.connections < m
    · rw [if_pos h]; exact ih _ _ _
    · rw [if_neg h]; exact ih _ _ _

theorem lcScan_none_iff (bs : List Backend) (idx : Nat) (m : Int) :
    lcScan bs idx none m = none ↔
      ∀ b ∈ bs, ¬(b.active = true ∧ b.connections < m) := by
  induction bs generalizing idx m with
  | nil => simp [lcScan]
  | cons b rest ih =>
    unfold lcScan
    by_cases h : b.active ∧ b.connections < m
    · rw [if_pos h]
      refine iff_of_false (lcScan_acc_some rest (idx + 1) idx b.connections) ?_
      intro hall
      exact hall b (List.mem_cons_self _ _) (by simpa using h)
    · rw [if_neg h]
      rw [ih]
      constructor
      · intro hrest b2 hb2
        rcases List.mem_cons.mp hb2 with h1 | h1
        · subst h1; simpa using h
        · exact hrest b2 h1
      · intro hall b2 hb2
        exact hall b2 (List.mem_cons_of_mem _ hb2)

theorem lcScan_result (bs : List Backend) (idx : Nat) (acc : Option Nat)
    (m M : Int) (hm : m ≤ M) (P : Nat → Prop) (hacc : ∀ j, acc = some j → P j)
    (hnew : ∀ k, ∀ hk : k < bs.length, (bs.get ⟨k, hk⟩).active = true →
      (bs.get ⟨k, hk⟩).connections < M → P (idx + k)) :
    ∀ j, lcScan bs idx acc m = some j → P j := by
  induction bs generalizing idx acc m with
  | nil => intro j hj; exact hacc j hj
  | cons b rest ih =>
    intro j hj
    unfold lcScan at hj
    by_cases h : b.active ∧ b.connections < m
    · rw [if_pos h] at hj
      refine ih (idx + 1) (some idx) b.connections (le_trans (le_of_lt h.2) hm)
        ?_ ?_ j hj
      · intro j2 hj2
        simp only [Option.some.injEq] at hj2
        subst hj2
        simpa using hnew 0 (by simp) (by simpa using h.1)
          (by simpa using lt_of_lt_of_le h.2 hm)
      · intro k hk hact hcon
        have := hnew (k + 1) (by simpa using Nat.succ_lt_succ hk)
          (by simpa using hact) (by simpa using hcon)
        simpa [Nat.add_assoc, Nat.add_comm 1 k] using this
    · rw [if_neg h] at hj
      refine ih (idx + 1) acc m hm hacc ?_ j hj
      intro k hk hact hcon
      have := hnew (k + 1) (by simpa using Nat.succ_lt_succ hk)
        (by simpa using hact) (by simpa using hcon)
      simpa [Nat.add_assoc, Nat.add_comm 1 k] using this

theorem lcScan_get_active (lc : List Backend) {j : Nat}
    (h : lcScan lc 0 none maxInt64 = some j) :
    ∃ b, lc.get? j = some b ∧ b.active = true ∧ b.connections < maxInt64 := by
  refine lcScan_result lc 0 none maxInt64 maxInt64 le_rfl
    (fun j2 => ∃ b, lc.get? j2 = some b ∧ b.active = true ∧
      b.connections < maxInt64) (by simp) ?_ j h
  intro k hk hact hcon
  exact ⟨lc.get ⟨k, hk⟩, by simp [List.get?_eq_get hk], hact, hcon⟩

theorem lcNext_some_eq {lc : LeastConnection} {idx : Nat} {b : Backend}
    (hscan : lcScan lc 0 none maxInt64 = some idx)
    (hb : lc.get? idx = some b) :
    lcNext lc = (some { b with connections := int64Add b.connections 1 },
      lc.set idx { b with connections := int64Add b.connections 1 }) := by
  simp only [lcNext, hscan, hb]

theorem lcNext_eq_none_iff (lc : LeastConnection) :
    (lcNext lc).1 = none ↔
      ∀ b ∈ lc, ¬(b.active = true ∧ b.connections < maxInt64) := by
  cases h : lcScan lc 0 none maxInt64 with
  | none =>
    have hval : (lcNext lc).1 = none := by simp only [lcNext, h]
    rw [hval]
    simpa using (lcScan_none_iff lc 0 maxInt64).mp h
  | some idx =>
    rcases lcScan_get_active lc h with ⟨b, hb, hact, hcon⟩
    rw [lcNext_some_eq h hb]
    refine iff_of_false (by simp) ?_
    intro hall
    exact hall b (List.get?_mem hb) ⟨hact, hcon⟩

theorem lcNext_some_active {lc : LeastConnection} {b : Backend}
    (h : (lcNext lc).1 = some b) : b.active = true := by
  cases hscan : lcScan lc 0 none maxInt64 with
  | none =>
    have hval : (lcNext lc).1 = none := by simp only [lcNext, hscan]
    rw [hval] at h
    exact absurd h (by simp)
  | some idx =>
    rcases lcScan_get_active lc hscan with ⟨b0, hb0, hact, hcon⟩
    rw [lcNext_some_eq hscan hb0] at h
    simp only [Option.some.injEq] at h
    rw [← h]
    exact hact

/-- C2 (counterexample): a least-connection pool holding a single active
backend whose `int64` connection counter equals `maxInt64` makes `Next`
return nil — the strict comparison against the `maxInt64` sentinel skips
it — so an active backend exists yet none is returned. -/
theorem C2_counterexample :
    ((⟨"b1", 1, true, 2 ^ 63 - 1⟩ : Backend).active = true) ∧
    (lcNext [⟨"b1", 1, true, 2 ^ 63 - 1⟩]).1 = none := by
  constructor
  · rfl
  · have : lcScan [(⟨"b1", 1, true, 2 ^ 63 - 1⟩ : Backend)] 0 none maxInt64
        = none := by
      unfold lcScan
      rw [if_neg (by simp [maxInt64])]
      rfl
    unfold lcNext
    rw [this]

/-- C2 (amended): round-robin `Next` returns none exactly when the pool is
empty or every backend is inactive, and otherwise returns an active member;
least-connection `Next` returns none exactly when no backend is both active
and below the `maxInt64` connection sentinel, and any backend it returns is
active. -/
theorem C2_next_none_iff (rr : RoundRobin) (lc : LeastConnection) :
    ((rrNext rr).1 = none ↔
      rr.backends = [] ∨ ∀ b ∈ rr.backends, b.active = false) ∧
    (∀ b, (rrNext rr).1 = some b → b.active = true ∧ b ∈ rr.backends) ∧
    ((lcNext lc).1 = none ↔
      ∀ b ∈ lc, ¬(b.active = true ∧ b.connections < maxInt64)) ∧
    (∀ b, (lcNext lc).1 = some b → b.active = true) :=
  ⟨rrNext_eq_none_iff rr, fun _ h => rrNext_some_active h,
   lcNext_eq_none_iff lc, fun _ h => lcNext_some_active h⟩

/-- C2 witness: concrete pools — an all-inactive round-robin pool yields
none, a pool with one active backend yields that active member, and a
least-connection pool with a low counter yields an active backend. -/
theorem C2_witness :
    ((rrNext ⟨[⟨"u1", 1, false, 0⟩], 0⟩).1 = none) ∧
    ((⟨"u2", 1, true, 0⟩ : Backend).active = true ∧
      (⟨"u2", 1, true, 0⟩ : Backend) ∈ [(⟨"u2", 1, true, 0⟩ : Backend)]) ∧
    ((⟨"u3", 1, true, 5⟩ : Backend).active = true) :=
  ⟨(C2_next_none_iff ⟨[⟨"u1", 1, false, 0⟩], 0⟩ []).1.mpr
      (Or.inr (by decide)),
   (C2_next_none_iff ⟨[⟨"u2", 1, true, 0⟩], 0⟩ []).2.1 ⟨"u2", 1, true, 0⟩
      (by decide),
   (C2_next_none_iff ⟨[], 0⟩ [⟨"u3", 1, true, 4⟩]).2.2.2
      ⟨"u3", 1, true, 5⟩ (by decide)⟩

/-- C3 (counterexample): `RoundRobin.Add` of a backend whose active flag is
false appends it unchanged — the stored backend is inactive, not active. -/
theorem C3_counterexample :
    ((rrAdd newRoundRobin ⟨"u", 1, false, 0⟩).backends.map Backend.active)
      = [false] := by
  decide

/-- C3 (amended): both Add operations append the backend at the end of the
pool; `LeastConnection.Add` forces the active flag to true regardless of
its previous value, while `RoundRobin.Add` stores the backend exactly as
passed, its active flag unchanged. -/
theorem C3_add_appends (rr : RoundRobin) (lc : LeastConnection) (b : Backend) :
    (rrAdd rr b).backends = rr.backends ++ [b] ∧
    (rrAdd rr b).current = rr.current ∧
    (rrAdd rr b).backends.getLast? = some b ∧
    lcAdd lc b = lc ++ [{ b with active := true }] ∧
    (lcAdd lc b).getLast? = some { b with active := true } ∧
    (∀ x ∈ lcAdd lc b, x ∈ lc ∨ x.active = true) := by
  refine ⟨rfl, rfl, ?_, rfl, ?_, ?_⟩
  · simp [rrAdd]
  · simp [lcAdd]
  · intro x hx
    rcases List.mem_append.mp hx with h | h
    · exact Or.inl h
    · simp only [List.mem_singleton] at h
      subst h
      exact Or.inr rfl

/-- C3 witness: a backend registered inactive stays inactive in a
round-robin pool and becomes active in a least-connection pool. -/
theorem C3_witness :
    (rrAdd ⟨[], 3⟩ ⟨"w", 2, false, 1⟩).backends = [⟨"w", 2, false, 1⟩] ∧
    lcAdd [] ⟨"w", 2, false, 1⟩ = [⟨"w", 2, true, 1⟩] ∧
    (∀ x ∈ lcAdd [] ⟨"w", 2, false, 1⟩, x ∈ ([] : LeastConnection) ∨
      x.active = true) :=
  ⟨by simpa using (C3_add_appends ⟨[], 3⟩ [] ⟨"w", 2, false, 1⟩).1,
   by simpa using (C3_add_appends ⟨[], 3⟩ [] ⟨"w", 2, false, 1⟩).2.2.2.1,
   (C3_add_appends ⟨[], 3⟩ [] ⟨"w", 2, false, 1⟩).2.2.2.2.2⟩

theorem lookupSvc_setSvc_self (reg : Registry) (svc : String)
    (l : List ServiceInstance) : lookupSvc (setSvc reg svc l) svc = some l := by
  induction reg with
  | nil => simp [setSvc, lookupSvc]
  | cons q rest ih =>
    obtain ⟨k, v⟩ := q
    unfold setSvc
    by_cases h : k = svc
    · simp [h, lookupSvc]
    · simp only [if_neg h]
      unfold lookupSvc
      rw [if_neg h]
      exact ih

theorem lookupSvc_setSvc_ne (reg : Registry) {k svc : String} (h : k ≠ svc)
    (l : List ServiceInstance) :
    lookupSvc (setSvc reg k l) svc = lookupSvc reg svc := by
  induction reg with
  | nil => simp [setSvc, lookupSvc, h]
  | cons q rest ih =>
    obtain ⟨k2, v⟩ := q
    unfold setSvc
    by_cases h2 : k2 = k
    · simp only [if_pos h2]
      unfold lookupSvc
      rw [if_neg h, if_neg (h2 ▸ h)]
    · simp only [if_neg h2]
      unfold lookupSvc
      by_cases h3 : k2 = svc
      · rw [if_pos h3, if_pos h3]
      · rw [if_neg h3, if_neg h3]
        exact ih

theorem findById_eq_none {l : List ServiceInstance} {iid : String}
    (h : ∀ i ∈ l, i.id ≠ iid) : findById l iid = none :=
  List.find?_eq_none.mpr (fun i hi => by simpa using h i hi)

theorem findById_upsertList_ne {inst : ServiceInstance} {iid : String}
    (h : inst.id ≠ iid) (l : List ServiceInstance) :
    findById (upsertList l inst) iid = findById l iid := by
  induction l with
  | nil => simp [upsertList, findById, h]
  | cons x xs ih =>
    by_cases hx : x.id = inst.id
    · have hxid : x.id ≠ iid := hx ▸ h
      simp [upsertList, hx, findById, h, hxid]
    · by_cases hxi : x.id = iid
      · simp only [upsertList, if_neg hx]
        unfold findById
        rw [List.find?_cons_of_pos _ (by simp [hxi]),
          List.find?_cons_of_pos _ (by simp [hxi])]
      · simp only [upsertList, if_neg hx]
        unfold findById at ih ⊢
        rw [List.find?_cons_of_neg _ (by simp [hxi]),
          List.find?_cons_of_neg _ (by simp [hxi])]
        exact ih

/-- After upserting a whole remote list, lookup by id prefers the remote
occurrence over the local one (remote lists with pairwise-distinct ids). -/
theorem findById_foldl_upsert (remotes : List ServiceInstance)
    (locals : List ServiceInstance)
    (hnd : (remotes.map ServiceInstance.id).Nodup) (iid : String) :
    findById (remotes.foldl upsertList locals) iid
      = (findById remotes iid).or (findById locals iid) := by
  induction remotes generalizing locals with
  | nil => simp [findById]
  | cons r rest ih =>
    obtain ⟨hrnot, hndrest⟩ := List.nodup_cons.mp
      (show (r.id :: rest.map ServiceInstance.id).Nodup by
        rw [List.map_cons] at hnd; exact hnd)
    simp only [List.foldl_cons]
    rw [ih _ hndrest]
    by_cases hid : r.id = iid
    · subst hid
      have h1 : findById rest r.id = none := findById_eq_none (fun i hi he =>
        hrnot (List.mem_map.mpr ⟨i, hi, he⟩))
      have h2 : findById (r :: rest) r.id = some r := by simp [findById]
      rw [h1, h2, findById_upsertList_self locals r]
      simp
    · rw [findById_upsertList_ne hid locals]
      have h5 : findById (r :: rest) iid = findById rest iid := by
        simp [findById, List.find?_cons, hid]
      rw [h5]

theorem findById_mergeService_self (reg : Registry) (svc : String)
    (remotes : List ServiceInstance)
    (hnd : (remotes.map ServiceInstance.id).Nodup) (iid : String) :
    findById (lookupSvcD (mergeService reg svc remotes) svc) iid
      = (findById remotes iid).or (findById (lookupSvcD reg svc) iid) := by
  unfold mergeService
  cases h : lookupSvc reg svc with
  | none =>
    rw [lookupSvcD_setSvc_self]
    have hd : lookupSvcD reg svc = [] := by simp [lookupSvcD, h]
    rw [hd]
    simp [findById]
  | some locals =>
    rw [lookupSvcD_setSvc_self]
    have hd : lookupSvcD reg svc = locals := by simp [lookupSvcD, h]
    rw [hd]
    exact findById_foldl_upsert remotes locals hnd iid

theorem lookupSvc_mergeService_ne (reg : Registry) {k svc : String}
    (h : k ≠ svc) (instances : List ServiceInstance) :
    lookupSvc (mergeService reg k instances) svc = lookupSvc reg svc := by
  unfold mergeService
  cases h2 : lookupSvc reg k with
  | none => exact lookupSvc_setSvc_ne reg h _
  | some locals => exact lookupSvc_setSvc_ne reg h _

theorem lookupSvc_mergeFold_ne (snap : Snapshot) (reg : Registry)
    (svc : String) (h : ∀ p ∈ snap, p.1 ≠ svc) :
    lookupSvc (snap.foldl (fun r p => mergeService r p.1 p.2) reg) svc
      = lookupSvc reg svc := by
  induction snap generalizing reg with
  | nil => rfl
  | cons p rest ih =>
    simp only [List.foldl_cons]
    rw [ih _ (fun q hq => h q (List.mem_cons_of_mem _ hq))]
    exact lookupSvc_mergeService_ne reg (h p (List.mem_cons_self _ _)) _

theorem findById_mergeFold (snap : Snapshot) (reg : Registry)
    (hkeys : (snap.map Prod.fst).Nodup) (hids : snapIdsNodup snap)
    {svc : String} {remotes : List ServiceInstance}
    (hmem : (svc, remotes) ∈ snap) (iid : String) :
    findById (lookupSvcD
        (snap.foldl (fun r p => mergeService r p.1 p.2) reg) svc) iid
      = (findById remotes iid).or (findById (lookupSvcD reg svc) iid) := by
  induction snap generalizing reg with
  | nil => simp at hmem
  | cons p rest ih =>
    obtain ⟨k, insts⟩ := p
    obtain ⟨hknot, hkeysrest⟩ := List.nodup_cons.mp
      (show (k :: rest.map Prod.fst).Nodup by
        rw [List.map_cons] at hkeys; exact hkeys)
    simp only [List.foldl_cons]
    rcases List.mem_cons.mp hmem with heq | hmemrest
    · injection heq with e1 e2
      subst e1
      subst e2
      have hrest_ne : ∀ q ∈ rest, q.1 ≠ svc := by
        intro q hq hqe
        exact hknot (hqe ▸ List.mem_map.mpr ⟨q, hq, rfl⟩)
      have hstep : lookupSvc
          (rest.foldl (fun r p => mergeService r p.1 p.2)
            (mergeService reg svc remotes)) svc
          = lookupSvc (mergeService reg svc remotes) svc :=
        lookupSvc_mergeFold_ne rest _ svc hrest_ne
      have hD : lookupSvcD
          (rest.foldl (fun r p => mergeService r p.1 p.2)
            (mergeService reg svc remotes)) svc
          = lookupSvcD (mergeService reg svc remotes) svc := by
        unfold lookupSvcD
        rw [hstep]
      rw [hD]
      exact findById_mergeService_self reg svc remotes
        (hids (svc, remotes) (List.mem_cons_self _ _)) iid
    · have hk_ne : k ≠ svc := fun he =>
        hknot (he ▸ List.mem_map.mpr ⟨(svc, remotes), hmemrest, rfl⟩)
      rw [ih (mergeService reg k insts) hkeysrest
        (fun q hq => hids q (List.mem_cons_of_mem _ hq)) hmemrest]
      have hD : lookupSvcD (mergeService reg k insts) svc = lookupSvcD reg svc := by
        unfold lookupSvcD
        rw [lookupSvc_mergeService_ne reg hk_ne]
      rw [hD]

/-- C6 (counterexample): with a local instance of id `x` in service `s` and
a snapshot whose list for `s` carries two distinct instances of id `x`, the
merged lookup by id yields the second remote occurrence rather than the
remote instance the union-keyed-by-id rule selects; and merging the same
duplicated snapshot into an empty registry keeps both duplicates, so the
result is not keyed by id at all. -/
theorem C6_counterexample :
    findById (lookupSvcD (mergeRemoteState [("s", [⟨"x", "s", "l", 1, []⟩])]
        [("s", [⟨"x", "s", "a", 1, []⟩, ⟨"x", "s", "b", 2, []⟩])]).1 "s") "x"
      ≠ (findById [⟨"x", "s", "a", 1, []⟩, ⟨"x", "s", "b", 2, []⟩] "x").or
          (findById (lookupSvcD [("s", [⟨"x", "s", "l", 1, []⟩])] "s") "x") ∧
    (lookupSvcD (mergeRemoteState []
        [("s", [⟨"x", "s", "a", 1, []⟩, ⟨"x", "s", "b", 2, []⟩])]).1 "s").map
      ServiceInstance.id = ["x", "x"] := by
  constructor
  · decide
  · decide

/-- C6 (amended): for snapshots whose per-service instance lists have
pairwise-distinct ids (and distinct service keys, as a decoded JSON map
guarantees), `MergeRemoteState` leaves services absent from the snapshot
unchanged, and for each remote service the merged list, viewed by id, is
the union of local and remote instances where the remote instance wins on
an id collision. -/
theorem C6_merge_union_by_id (reg : Registry) (snap : Snapshot)
    (hkeys : (snap.map Prod.fst).Nodup) (hids : snapIdsNodup snap) :
    (∀ svc, (∀ p ∈ snap, p.1 ≠ svc) →
      lookupSvc (mergeRemoteState reg snap).1 svc = lookupSvc reg svc) ∧
    (∀ svc remotes, (svc, remotes) ∈ snap → ∀ iid,
      findById (lookupSvcD (mergeRemoteState reg snap).1 svc) iid
        = (findById remotes iid).or (findById (lookupSvcD reg svc) iid)) := by
  constructor
  · intro svc h
    exact lookupSvc_mergeFold_ne snap reg svc h
  · intro svc remotes hmem iid
    exact findById_mergeFold snap reg hkeys hids hmem iid

/-- C6 witness: a two-service snapshot merged into a registry that shares
one id — the collision resolves to the remote instance, the remote-only id
and service are added, and an untouched service survives verbatim. -/
theorem C6_witness :
    (lookupSvc (mergeRemoteState
        [("s", [⟨"x", "s", "l", 1, []⟩]), ("keep", [⟨"k", "keep", "h", 9, []⟩])]
        [("s", [⟨"x", "s", "r", 2, []⟩, ⟨"y", "s", "r2", 3, []⟩]),
         ("new", [⟨"n", "new", "h", 4, []⟩])]).1 "keep"
      = some [⟨"k", "keep", "h", 9, []⟩]) ∧
    (findById (lookupSvcD (mergeRemoteState
        [("s", [⟨"x", "s", "l", 1, []⟩]), ("keep", [⟨"k", "keep", "h", 9, []⟩])]
        [("s", [⟨"x", "s", "r", 2, []⟩, ⟨"y", "s", "r2", 3, []⟩]),
         ("new", [⟨"n", "new", "h", 4, []⟩])]).1 "s") "x"
      = (findById [⟨"x", "s", "r", 2, []⟩, ⟨"y", "s", "r2", 3, []⟩] "x").or
          (findById (lookupSvcD
            [("s", [⟨"x", "s", "l", 1, []⟩]),
             ("keep", [⟨"k", "keep", "h", 9, []⟩])] "s") "x")) :=
  ⟨(C6_merge_union_by_id
      [("s", [⟨"x", "s", "l", 1, []⟩]), ("keep", [⟨"k", "keep", "h", 9, []⟩])]
      [("s", [⟨"x", "s", "r", 2, []⟩, ⟨"y", "s", "r2", 3, []⟩]),
       ("new", [⟨"n", "new", "h", 4, []⟩])] (by decide) (by decide)).1
      "keep" (by decide),
   (C6_merge_union_by_id
      [("s", [⟨"x", "s", "l", 1, []⟩]), ("keep", [⟨"k", "keep", "h", 9, []⟩])]
      [("s", [⟨"x", "s", "r", 2, []⟩, ⟨"y", "s", "r2", 3, []⟩]),
       ("new", [⟨"n", "new", "h", 4, []⟩])] (by decide) (by decide)).2
      "s" [⟨"x", "s", "r", 2, []⟩, ⟨"y", "s", "r2", 3, []⟩] (by decide) "x"⟩

/-- Either pool variant, as stored in `Server.loadBalancers`. -/
inductive LB where
  | rr (pool : RoundRobin)
  | lc (pool : LeastConnection)
deriving DecidableEq, Repr

/-- Dispatch of the `LoadBalancer.Add` interface method. -/
def lbAdd (l : LB) (b : Backend) : LB :=
  match l with
  | LB.rr p => LB.rr (rrAdd p b)
  | LB.lc p => LB.lc (lcAdd p b)

/-- Decimal digit run for the `strconv.Atoi` model. -/
def parseDigits (cs : List Char) : Option Nat :=
  if cs ≠ [] ∧ cs.all Char.isDigit then
    some (cs.foldl (fun acc c => acc * 10 + (c.toNat - 48)) 0)
  else none

/-- Model of `strconv.Atoi` on a 64-bit platform: optional sign, decimal
digits, value within the `int64` range; anything else is an error (on a
range error Go also returns a non-nil error, so the caller ignores the
value). -/
def atoi (s : String) : Option Int :=
  match s.toList with
  | '+' :: rest => (parseDigits rest).bind
      (fun n => if (n : Int) ≤ maxInt64 then some (n : Int) else none)
  | '-' :: rest => (parseDigits rest).bind
      (fun n => if (n : Int) ≤ 2 ^ 63 then some (-(n : Int)) else none)
  | l => (parseDigits l).bind
      (fun n => if (n : Int) ≤ maxInt64 then some (n : Int) else none)

/-- Metadata lookup `instance.Metadata["weight"]`. -/
def metaLookup : List (String × String) → String → Option String
  | [], _ => none
  | (k, v) :: rest, key => if k = key then some v else metaLookup rest key

/-- The weight computation of `updateLoadBalancerBackends`: default 1,
overridden by a successfully parsed `weight` metadata entry. -/
def weightOf (inst : ServiceInstance) : Int :=
  match metaLookup inst.metadata "weight" with
  | some w => (atoi w).getD 1
  | none => 1

/-- The backend URL string `fmt.Sprintf` builds for an instance. -/
def backendURLString (inst : ServiceInstance) : String :=
  "http://" ++ inst.address ++ ":" ++ toString inst.port

/-- The backend the wiring constructs for one instance whose URL string
`url.Parse` accepted: the parsed URL (kept by its string form), computed
weight, active flag set, zero-valued connection counter. -/
def backendOf (inst : ServiceInstance) : Backend :=
  ⟨backendURLString inst, weightOf inst, true, 0⟩

/-- `Server.updateLoadBalancerBackends`: when no pool exists for the
service, a fresh round-robin pool is created and a wildcard route for the
service is appended; then a fresh empty pool of the same variant as the
current one is built, populated from the instance list via `Add` — the
loop `continue`s past every instance whose built URL string fails
`url.Parse` — and swapped in.  Which URL strings `url.Parse` accepts is
decided inside the net/url library (it rejects, among others, control
bytes in the address and negative ports), so its success predicate is
abstracted as the argument `parseOk`; the theorems below quantify over
every predicate and therefore hold for the library's.  Returns the new
pool and the list of newly added route patterns. -/
def updateLoadBalancerBackends (parseOk : ServiceInstance → Bool)
    (existing : Option LB) (serviceName : String)
    (instances : List ServiceInstance) : LB × List String :=
  let created := match existing with
    | none => (LB.rr newRoundRobin, ["/" ++ serviceName ++ "/*"])
    | some l => (l, [])
  let newLB := match created.1 with
    | LB.lc _ => LB.lc newLeastConnection
    | LB.rr _ => LB.rr newRoundRobin
  (instances.foldl
    (fun l inst => if parseOk inst then lbAdd l (backendOf inst) else l)
    newLB, created.2)

theorem foldl_lbAdd_rr (parseOk : ServiceInstance → Bool)
    (instances : List ServiceInstance) (acc : List Backend) (c : Nat) :
    instances.foldl
        (fun l inst => if parseOk inst then lbAdd l (backendOf inst) else l)
        (LB.rr ⟨acc, c⟩)
      = LB.rr ⟨acc ++ (instances.filter parseOk).map backendOf, c⟩ := by
  induction instances generalizing acc with
  | nil => simp
  | cons i rest ih =>
    simp only [List.foldl_cons]
    by_cases h : parseOk i = true
    · rw [if_pos h]
      rw [show lbAdd (LB.rr ⟨acc, c⟩) (backendOf i)
          = LB.rr ⟨acc ++ [backendOf i], c⟩ from rfl]
      rw [ih]
      simp [List.filter_cons, h]
    · rw [if_neg h, ih]
      simp [List.filter_cons, h]

theorem foldl_lbAdd_lc (parseOk : ServiceInstance → Bool)
    (instances : List ServiceInstance) (acc : List Backend) :
    instances.foldl
        (fun l inst => if parseOk inst then lbAdd l (backendOf inst) else l)
        (LB.lc acc)
      = LB.lc (acc ++ (instances.filter parseOk).map backendOf) := by
  induction instances generalizing acc with
  | nil => simp
  | cons i rest ih =>
    simp only [List.foldl_cons]
    by_cases h : parseOk i = true
    · rw [if_pos h]
      rw [show lbAdd (LB.lc acc) (backendOf i)
          = LB.lc (acc ++ [backendOf i]) from rfl]
      rw [ih]
      simp [List.filter_cons, h]
    · rw [if_neg h, ih]
      simp [List.filter_cons, h]

theorem rrNext_fresh_pool (bs : List Backend) (hne : bs ≠ [])
    (hact : ∀ b ∈ bs, b.active = true) :
    (rrNext ⟨bs, 0⟩).1 = some (bs.getD (1 % bs.length) dummyBackend) := by
  have hfilter : bs.filter (fun b => b.active) = bs :=
    List.filter_eq_self.mpr (fun b hb => by simp [hact b hb])
  unfold rrNext
  simp only [hfilter]
  rw [if_neg hne, if_neg hne]
  norm_num

/-- C9: the wiring replaces the pool with a freshly built pool of the same
variant on every registry notification, skipping the instances whose built
URL string `url.Parse` rejects; the round-robin counter therefore restarts
at zero, and the first `Next` on the rebuilt pool of n (all active)
backends — n the number of instances whose URL parsed — returns the
backend at index 1 mod n regardless of the previous pool's rotation
position.  `parseOk` ranges over every predicate, so the statement covers
the net/url acceptance predicate in particular. -/
theorem C9_pool_rebuild_resets_counter (parseOk : ServiceInstance → Bool)
    (prev : RoundRobin) (existing : Option LB)
    (serviceName : String) (instances : List ServiceInstance)
    (hvar : existing = none ∨ existing = some (LB.rr prev))
    (hne : instances.filter parseOk ≠ []) :
    (updateLoadBalancerBackends parseOk existing serviceName instances).1
      = LB.rr ⟨(instances.filter parseOk).map backendOf, 0⟩ ∧
    (∀ b ∈ (instances.filter parseOk).map backendOf, b.active = true) ∧
    (rrNext ⟨(instances.filter parseOk).map backendOf, 0⟩).1
      = some (((instances.filter parseOk).map backendOf).getD
          (1 % (instances.filter parseOk).length) dummyBackend) ∧
    (∀ lcp : LeastConnection,
      (updateLoadBalancerBackends parseOk (some (LB.lc lcp)) serviceName
          instances).1
        = LB.lc ((instances.filter parseOk).map backendOf)) := by
  have hact : ∀ b ∈ (instances.filter parseOk).map backendOf,
      b.active = true := by
    intro b hb
    rcases List.mem_map.mp hb with ⟨i, _, rfl⟩
    rfl
  refine ⟨?_, hact, ?_, ?_⟩
  · rcases hvar with h | h <;>
      simp only [h, updateLoadBalancerBackends, newRoundRobin] <;>
      simpa using foldl_lbAdd_rr parseOk instances [] 0
  · have hlen : ((instances.filter parseOk).map backendOf).length
        = (instances.filter parseOk).length := List.length_map _ _
    rw [rrNext_fresh_pool _ (by simpa using hne) hact, hlen]
  · intro lcp
    simp only [updateLoadBalancerBackends, newLeastConnection]
    simpa using foldl_lbAdd_lc parseOk instances []

/-- C9 witness: with a parse predicate rejecting negative ports, an
existing round-robin pool at rotation position 7 is replaced by a fresh
pool holding only the two parseable of three instances — the unparseable
one is skipped — whose first `Next` yields the backend at index
1 mod 2 = 1, and a least-connection pool is rebuilt as least-connection. -/
theorem C9_witness :
    (updateLoadBalancerBackends (fun i => decide (0 < i.port))
        (some (LB.rr ⟨[⟨"old", 1, true, 0⟩], 7⟩)) "svc"
        [⟨"a", "svc", "h1", 1, []⟩, ⟨"bad", "svc", "h9", -1, []⟩,
         ⟨"b", "svc", "h2", 2, []⟩]).1
      = LB.rr ⟨([⟨"a", "svc", "h1", 1, []⟩, ⟨"bad", "svc", "h9", -1, []⟩,
          (⟨"b", "svc", "h2", 2, []⟩ : ServiceInstance)].filter
            (fun i => decide (0 < i.port))).map backendOf, 0⟩ ∧
    (rrNext ⟨([⟨"a", "svc", "h1", 1, []⟩, ⟨"bad", "svc", "h9", -1, []⟩,
        (⟨"b", "svc", "h2", 2, []⟩ : ServiceInstance)].filter
          (fun i => decide (0 < i.port))).map backendOf, 0⟩).1
      = some ((([⟨"a", "svc", "h1", 1, []⟩, ⟨"bad", "svc", "h9", -1, []⟩,
          (⟨"b", "svc", "h2", 2, []⟩ : ServiceInstance)].filter
            (fun i => decide (0 < i.port))).map backendOf).getD
          (1 % ([⟨"a", "svc", "h1", 1, []⟩, ⟨"bad", "svc", "h9", -1, []⟩,
            (⟨"b", "svc", "h2", 2, []⟩ : ServiceInstance)].filter
              (fun i => decide (0 < i.port))).length) dummyBackend) ∧
    ((([⟨"a", "svc", "h1", 1, []⟩, ⟨"bad", "svc", "h9", -1, []⟩,
        (⟨"b", "svc", "h2", 2, []⟩ : ServiceInstance)].filter
          (fun i => decide (0 < i.port))).map backendOf).getD
        (1 % ([⟨"a", "svc", "h1", 1, []⟩, ⟨"bad", "svc", "h9", -1, []⟩,
          (⟨"b", "svc", "h2", 2, []⟩ : ServiceInstance)].filter
            (fun i => decide (0 < i.port))).length) dummyBackend
      = backendOf ⟨"b", "svc", "h2", 2, []⟩) ∧
    (updateLoadBalancerBackends (fun _ => true) (some (LB.lc [])) "svc"
        [⟨"a", "svc", "h1", 1, []⟩]).1
      = LB.lc (([(⟨"a", "svc", "h1", 1, []⟩ : ServiceInstance)].filter
          (fun _ => true)).map backendOf) :=
  ⟨(C9_pool_rebuild_resets_counter (fun i => decide (0 < i.port))
      ⟨[⟨"old", 1, true, 0⟩], 7⟩
      (some (LB.rr ⟨[⟨"old", 1, true, 0⟩], 7⟩)) "svc"
      [⟨"a", "svc", "h1", 1, []⟩, ⟨"bad", "svc", "h9", -1, []⟩,
       ⟨"b", "svc", "h2", 2, []⟩] (Or.inr rfl) (by decide)).1,
   (C9_pool_rebuild_resets_counter (fun i => decide (0 < i.port))
      ⟨[⟨"old", 1, true, 0⟩], 7⟩
      (some (LB.rr ⟨[⟨"old", 1, true, 0⟩], 7⟩)) "svc"
      [⟨"a", "svc", "h1", 1, []⟩, ⟨"bad", "svc", "h9", -1, []⟩,
       ⟨"b", "svc", "h2", 2, []⟩] (Or.inr rfl) (by decide)).2.2.1,
   by rfl,
   (C9_pool_rebuild_resets_counter (fun _ => true) ⟨[], 0⟩ none "svc"
      [⟨"a", "svc", "h1", 1, []⟩] (Or.inl rfl) (by decide)).2.2.2 []⟩

/-- Go `strings.HasSuffix` on character lists. -/
def hasSuffixB (s suffix : List Char) : Bool := decide (List.IsSuffix suffix s)

/-- Go `strings.HasPrefix` on character lists. -/
def hasPrefixB (s p : List Char) : Bool := decide (List.IsPrefix p s)

/-- Go `strings.TrimSuffix` on character lists: drop the suffix when
present, else return the string unchanged. -/
def trimSuffixB (s suffix : List Char) : List Char :=
  if List.IsSuffix suffix s then s.take (s.length - suffix.length) else s

/-- The `trim` closure inside `Router.matchPath`: normalize one trailing
slash away, except at the root. -/
def trimPath (s : List Char) : List Char :=
  if s = ['/'] then s else trimSuffixB s ['/']

/-- `Router.matchPath` from `pkg/router`. -/
def matchPath (requestPath routePath : List Char) : Bool :=
  if hasSuffixB routePath ['*'] then
    let base := trimSuffixB routePath ['*']
    if hasSuffixB base ['/'] then
      let trimmed := trimSuffixB base ['/']
      (requestPath == trimmed) || hasPrefixB requestPath base
    else hasPrefixB requestPath base
  else trimPath requestPath == trimPath routePath

/-- The wildcard route pattern the wiring registers for service `s`. -/
def servicePattern (s : List Char) : List Char := '/' :: (s ++ ['/', '*'])

theorem isSuffix_singleton_append (xs : List Char) (c : Char) :
    List.IsSuffix [c] (xs ++ [c]) := ⟨xs, rfl⟩

theorem trimSuffixB_append_singleton (xs : List Char) (c : Char) :
    trimSuffixB (xs ++ [c]) [c] = xs := by
  unfold trimSuffixB
  rw [if_pos (isSuffix_singleton_append xs c)]
  simp

theorem append_prefix_append_iff (l l₁ l₂ : List Char) :
    List.IsPrefix (l ++ l₁) (l ++ l₂) ↔ List.IsPrefix l₁ l₂ := by
  induction l with
  | nil => simp
  | cons c rest ih =>
    simp only [List.cons_append, List.cons_prefix_cons, true_and]
    exact ih

theorem matchPath_servicePattern_eq (s p : List Char) :
    matchPath p (servicePattern s)
      = ((p == '/' :: s) || hasPrefixB p ('/' :: (s ++ ['/']))) := by
  have e1 : servicePattern s = ('/' :: (s ++ ['/'])) ++ ['*'] := by
    simp [servicePattern]
  have e2 : '/' :: (s ++ ['/']) = ('/' :: s) ++ ['/'] := by simp
  unfold matchPath
  rw [e1]
  rw [if_pos (show hasSuffixB (('/' :: (s ++ ['/'])) ++ ['*']) ['*'] = true from
    decide_eq_true (isSuffix_singleton_append _ _))]
  rw [trimSuffixB_append_singleton]
  rw [if_pos (show hasSuffixB ('/' :: (s ++ ['/'])) ['/'] = true from
    decide_eq_true (e2 ▸ isSuffix_singleton_append ('/' :: s) '/'))]
  rw [show trimSuffixB ('/' :: (s ++ ['/'])) ['/'] = '/' :: s from
    e2 ▸ trimSuffixB_append_singleton ('/' :: s) '/']

/-- C8: a route with pattern `/{s}/*` matches a request path `p` exactly
when `p` equals `/{s}`, equals `/{s}/`, or has `/{s}/` as a prefix; in
particular a path that continues `/{s}` with any character other than a
slash (such as `/{s}2/x` or `/{s}x`) does not match. -/
theorem C8_wildcard_path_match (s p : List Char) :
    (matchPath p (servicePattern s) = true ↔
      (p = '/' :: s ∨ p = '/' :: (s ++ ['/']) ∨
        List.IsPrefix ('/' :: (s ++ ['/'])) p)) ∧
    (∀ c t, c ≠ '/' →
      matchPath ('/' :: (s ++ (c :: t))) (servicePattern s) = false) := by
  constructor
  · rw [matchPath_servicePattern_eq]
    simp only [Bool.or_eq_true, beq_iff_eq, hasPrefixB, decide_eq_true_eq]
    constructor
    · rintro (h | h)
      · exact Or.inl h
      · exact Or.inr (Or.inr h)
    · rintro (h | h | h)
      · exact Or.inl h
      · exact Or.inr (h ▸ ⟨[], List.append_nil _⟩)
      · exact Or.inr h
  · intro c t hc
    rw [matchPath_servicePattern_eq]
    have h1 : ('/' :: (s ++ (c :: t)) == '/' :: s) = false := by
      rw [beq_eq_false_iff_ne]
      intro he
      have : s ++ (c :: t) = s := by
        injection he
      have hlen := congrArg List.length this
      simp at hlen
    have h2 : hasPrefixB ('/' :: (s ++ (c :: t))) ('/' :: (s ++ ['/'])) = false := by
      unfold hasPrefixB
      rw [decide_eq_false_iff_not]
      intro hpre
      have hpre2 : List.IsPrefix (s ++ ['/']) (s ++ (c :: t)) :=
        (List.cons_prefix_cons.mp hpre).2
      have hpre3 : List.IsPrefix ['/'] (c :: t) :=
        (append_prefix_append_iff s _ _).mp hpre2
      have := (List.cons_prefix_cons.mp hpre3).1
      exact hc this.symm
    rw [h1, h2]
    rfl

/-- C8 witness: for service `s`, the paths `/s`, `/s/` and `/s/x` match the
pattern `/s/*`, while `/s2/x` and `/sx` do not. -/
theorem C8_witness :
    matchPath ['/', 's'] (servicePattern ['s']) = true ∧
    matchPath ['/', 's', '/'] (servicePattern ['s']) = true ∧
    matchPath ['/', 's', '/', 'x'] (servicePattern ['s']) = true ∧
    matchPath ['/', 's', '2', '/', 'x'] (servicePattern ['s']) = false ∧
    matchPath ['/', 's', 'x'] (servicePattern ['s']) = false :=
  ⟨(C8_wildcard_path_match ['s'] ['/', 's']).1.mpr (Or.inl rfl),
   (C8_wildcard_path_match ['s'] ['/', 's', '/']).1.mpr (Or.inr (Or.inl rfl)),
   (C8_wildcard_path_match ['s'] ['/', 's', '/', 'x']).1.mpr
     (Or.inr (Or.inr ⟨['x'], rfl⟩)),
   (C8_wildcard_path_match ['s'] ['/', 's', '2', '/', 'x']).2 '2' ['/', 'x']
     (by decide),
   (C8_wildcard_path_match ['s'] ['/', 's', 'x']).2 'x' [] (by decide)⟩

/-- A metadata map's contents. -/
abbrev MetaMap := List (String × String)

/-- Go map assignment `m[k] = v`: replace the binding or append it. -/
def mapSet : MetaMap → String → String → MetaMap
  | [], k, v => [(k, v)]
  | (k2, v2) :: rest, k, v =>
    if k2 = k then (k, v) :: rest else (k2, v2) :: mapSet rest k v

/-- An instance as held by the aliasing model of the registry: the
`map[string]string` metadata field is a reference into a heap of maps,
because a Go struct copy copies the map header and shares the storage. -/
structure InstanceRef where
  id : String
  service : String
  address : String
  port : Int
  meta : Nat
deriving DecidableEq, Repr

/-- Registry table plus the metadata heap. -/
structure RegHeapState where
  services : List (String × List InstanceRef)
  heap : List MetaMap
deriving DecidableEq, Repr

/-- Registry table read with the nil slice behaving as an empty list. -/
def lookupSvcR : List (String × List InstanceRef) → String → List InstanceRef
  | [], _ => []
  | (k, v) :: rest, svc => if k = svc then v else lookupSvcR rest svc

/-- `Service.GetInstances`: `make` a fresh slice and `copy` the structs
into it — the returned structs equal the internal ones, metadata
references included. -/
def getInstancesRef (s : RegHeapState) (svc : String) : List InstanceRef :=
  lookupSvcR s.services svc

/-- `Service.GetAllServices`: fresh map and fresh per-service slices
holding the same struct values. -/
def getAllServicesRef (s : RegHeapState) : List (String × List InstanceRef) :=
  s.services

/-- Dereference a metadata reference (a missing reference reads as an empty
map). -/
def heapRead (h : List MetaMap) (r : Nat) : MetaMap := h.getD r []

/-- A caller writing `returned.Metadata[k] = v`: a store through the shared
map reference. -/
def heapWrite (h : List MetaMap) (r : Nat) (k v : String) : List MetaMap :=
  h.set r (mapSet (heapRead h r) k v)

/-- The metadata the registry itself observes for the instance with the
given id of the given service. -/
def observedMetadata (s : RegHeapState) (svc iid : String) : Option MetaMap :=
  (List.find? (fun i => i.id = iid) (lookupSvcR s.services svc)).map
    (fun i => heapRead s.heap i.meta)

/-- C4 (counterexample): `GetInstances` hands the caller a struct copy that
shares the metadata map; a write through the returned instance's metadata
map changes the metadata the registry observes for its own stored instance,
so the returned values are not defensive against metadata mutation. -/
theorem C4_counterexample :
    getInstancesRef ⟨[("svc", [⟨"x", "svc", "a", 1, 0⟩])], [[]]⟩ "svc"
      = [⟨"x", "svc", "a", 1, 0⟩] ∧
    observedMetadata ⟨[("svc", [⟨"x", "svc", "a", 1, 0⟩])], [[]]⟩ "svc" "x"
      = some [] ∧
    observedMetadata ⟨[("svc", [⟨"x", "svc", "a", 1, 0⟩])],
        heapWrite [[]] 0 "k" "v"⟩ "svc" "x" = some [("k", "v")] ∧
    observedMetadata ⟨[("svc", [⟨"x", "svc", "a", 1, 0⟩])],
        heapWrite [[]] 0 "k" "v"⟩ "svc" "x"
      ≠ observedMetadata ⟨[("svc", [⟨"x", "svc", "a", 1, 0⟩])], [[]]⟩ "svc" "x" := by
  refine ⟨rfl, rfl, rfl, ?_⟩
  decide

theorem heapRead_heapWrite_self (h : List MetaMap) (r : Nat) (k v : String)
    (hr : r < h.length) :
    heapRead (heapWrite h r k v) r = mapSet (heapRead h r) k v := by
  unfold heapRead heapWrite
  rw [List.getD_eq_getElem _ _ (by simpa using hr)]
  simp [List.getElem_set_self, heapRead, List.getD]

/-- C4 (amended): `GetInstances` and `GetAllServices` return fresh
containers whose elements are struct copies of the internal instances —
value-equal, so container-level edits by the caller cannot reach the
registry's own slices — but each returned instance shares its metadata
reference with the stored one, and a caller's write through a returned
metadata map is observed by the registry. -/
theorem C4_reads_share_metadata (s : RegHeapState) (svc : String)
    (inst : InstanceRef) (k v : String)
    (hmem : inst ∈ getInstancesRef s svc) (hr : inst.meta < s.heap.length) :
    inst ∈ lookupSvcR s.services svc ∧
    getAllServicesRef s = s.services ∧
    heapRead (heapWrite s.heap inst.meta k v) inst.meta
      = mapSet (heapRead s.heap inst.meta) k v := by
  refine ⟨hmem, rfl, heapRead_heapWrite_self _ _ _ _ hr⟩

/-- C4 witness: a concrete registry state with one stored instance whose
returned copy aliases heap cell 0. -/
theorem C4_witness :
    (⟨"x", "svc", "a", 1, 0⟩ : InstanceRef) ∈
      lookupSvcR [("svc", [⟨"x", "svc", "a", 1, 0⟩])] "svc" ∧
    heapRead (heapWrite [[]] 0 "k" "v") 0 = mapSet (heapRead [[]] 0) "k" "v" :=
  ⟨(C4_reads_share_metadata ⟨[("svc", [⟨"x", "svc", "a", 1, 0⟩])], [[]]⟩
      "svc" ⟨"x", "svc", "a", 1, 0⟩ "k" "v" (by decide) (by decide)).1,
   (C4_reads_share_metadata ⟨[("svc", [⟨"x", "svc", "a", 1, 0⟩])], [[]]⟩
      "svc" ⟨"x", "svc", "a", 1, 0⟩ "k" "v" (by decide) (by decide)).2.2⟩

end FluxGate
